import Mathlib

/-!
Verification of the build-orchestration and dependency-resolution core of the
repository against its natural-language specification.

The first part embeds the dependency resolver of
src/src/dfx/src/config/dfinity.rs: the recursive `add_dependencies` traversal
with its visited set and current-path stack, cycle detection, and the public
entry point `get_canister_names_with_dependencies`.  The second part embeds the
Rust build backend of src/src/dfx/src/lib/builders/rust.rs: dependency lookup
through the canister pool, the cargo invocation with injected environment, the
optional size-optimizer step, and candid-metadata embedding.

Machine-level collaborators that are not part of the sources (the canister
pool, canister info, the environment-variable construction in builders/mod.rs,
and the wasm metadata helper) are modelled from the specification; each such
definition carries a doc comment starting with `Modelled from the spec:`.
-/

/-- One canister declaration from dfx.json, restricted to the field the
dependency resolver reads: `ConfigCanistersCanister.dependencies`
(src/src/dfx/src/config/dfinity.rs, line 85). All other fields of the Rust
struct are irrelevant to the traversal. -/
structure ConfigCanister where
  dependencies : List String
deriving DecidableEq, Repr

/-- The `BTreeMap<String, ConfigCanistersCanister>` of the configuration,
represented as an association list whose order is the ascending key order of
the BTreeMap (so `canisterKeys` is the list `keys()` returns). -/
abbrev CanisterMap := List (String × ConfigCanister)

/-- `all_canisters.get(name)` on the canister map. -/
def lookupCanister (all : CanisterMap) (name : String) : Option ConfigCanister :=
  (all.find? (fun p => p.1 == name)).map (fun p => p.2)

/-- `canister_map.keys()`: the declared canister names in map order. -/
def canisterKeys (all : CanisterMap) : List String :=
  all.map (fun p => p.1)

/-- Errors of the resolver, including the context layers added by the
`#[context(...)]` attributes of fn_error_context.
`circular` carries the path list whose " -> " join is the message of
`BuildError::DependencyError` (dfinity.rs line 486); `notFound` is the
`anyhow!` error of dfinity.rs line 497; `addDepsCtx` is the per-call context
of `add_dependencies` (line 474); `getNamesCtx` is the context of
`get_canister_names_with_dependencies` (line 383); `noCanistersField` is the
invalid-config error of line 390.  `outOfFuel` is an artifact of the fueled
embedding, proven unreachable for the fuel the entry point supplies. -/
inductive DfxErr where
  | circular (path : List String)
  | notFound (name : String)
  | addDepsCtx (name : String) (e : DfxErr)
  | getNamesCtx (focus : Option String) (e : DfxErr)
  | noCanistersField
  | outOfFuel
deriving DecidableEq, Repr

/-- The `for canister in &canister_config.dependencies { add_dependencies(...)? }`
loop of dfinity.rs lines 501-503, abstracted over the recursive call `step`.
The loop threads the visited set through the iterations and stops at the first
error. `none` propagates fuel exhaustion of the fueled recursion. -/
def depsLoop (step : List String → String → Option (Except DfxErr (List String))) :
    List String → List String → Option (Except DfxErr (List String))
  | names, [] => some (.ok names)
  | names, d :: ds =>
    match step names d with
    | none => none
    | some (.error e) => some (.error e)
    | some (.ok ns) => depsLoop step ns ds

/-- The `#[context("Failed to add dependencies for canister ...")]` layer of
`add_dependencies`: every error leaving a call is wrapped with the name of the
canister that call was processing; successes and fuel exhaustion pass through. -/
def wrapCtx (name : String) :
    Option (Except DfxErr (List String)) → Option (Except DfxErr (List String))
  | some (.error e) => some (.error (.addDepsCtx name e))
  | r => r

/-- `add_dependencies` of dfinity.rs lines 474-508, with an explicit fuel
argument in place of the unbounded Rust recursion (fuel sufficiency is proven
below).  `names` is the `HashSet<String>` of visited canisters, represented by
the list of insertions (only membership in it is meaningful); `path` is the
active recursion path.  The Rust function first inserts the name, returns early
on a repeat (with a circular-dependency error when the repeat is on the active
path, appending the repeated name to the path first), otherwise looks the name
up, pushes it on the path and recurses over its declared dependencies.  Every
error leaving a call is wrapped in that call's `#[context]` layer. -/
def addDependencies (all : CanisterMap) :
    Nat → List String → List String → String → Option (Except DfxErr (List String))
  | 0, _, _, _ => none
  | fuel + 1, names, path, name =>
    wrapCtx name
      (if names.contains name then
        if path.contains name then
          some (.error (.circular (path ++ [name])))
        else
          some (.ok names)
      else
        match lookupCanister all name with
        | none => some (.error (.notFound name))
        | some c =>
          depsLoop (fun ns d => addDependencies all fuel ns (path ++ [name]) d)
            (name :: names) c.dependencies)

/-- `ConfigInterface::get_canister_names_with_dependencies` (dfinity.rs lines
384-403).  With a focus canister it runs the traversal from the focus and
returns the visited set (`names.into_iter().collect()`, whose iteration order
Rust leaves unspecified; the list returned here is the insertion sequence and
only its membership is meaningful, see `focusedMayReturn`).  With no focus it
returns the map keys without any traversal.  The fuel `all.length + 1` is
proven sufficient below, so `outOfFuel` never occurs. -/
def getCanisterNamesWithDependencies (canisters : Option CanisterMap)
    (someCanister : Option String) : Except DfxErr (List String) :=
  let raw : Except DfxErr (List String) :=
    match canisters with
    | none => .error .noCanistersField
    | some all =>
      match someCanister with
      | some focus =>
        match addDependencies all (all.length + 1) [] [] focus with
        | none => .error .outOfFuel
        | some (.error e) => .error e
        | some (.ok names) => .ok names
      | none => .ok (canisterKeys all)
  match raw with
  | .error e => .error (.getNamesCtx someCanister e)
  | r => r

/-- The dependency edge relation of the declared graph: `x` lists `y` directly. -/
def edge (all : CanisterMap) (x y : String) : Prop :=
  ∃ c, lookupCanister all x = some c ∧ y ∈ c.dependencies

/-- The possible return values of a focused
`get_canister_names_with_dependencies` call.  The Rust implementation collects
the visited names through a `std::collections::HashSet` and returns
`names.into_iter().collect()`; `HashSet` iteration order is unspecified (it
depends on the per-process random hash seed), so any enumeration of the
computed set is a possible result.  This predicate models that: a list may be
returned iff it is a permutation of the computed set. -/
def focusedMayReturn (all : CanisterMap) (focus : String) (l : List String) : Prop :=
  ∃ s, getCanisterNamesWithDependencies (some all) (some focus) = .ok s ∧ s.Perm l

/-- A name sequence respects the dependency order when no earlier element
transitively lists a later one, i.e. every dependency appears before every
package that (transitively) lists it. -/
def orderedByDeps (all : CanisterMap) (l : List String) : Prop :=
  l.Pairwise (fun a b => ¬ Relation.TransGen (edge all) a b)

/-- Extracts the path payload of a circular-dependency error, looking through
the context layers. -/
def circPayload : DfxErr → Option (List String)
  | .circular p => some p
  | .addDepsCtx _ e => circPayload e
  | .getNamesCtx _ e => circPayload e
  | _ => none

/-- The number of declared canister names not yet visited: the quantity the
fueled recursion is bounded by. -/
def countNew (all : CanisterMap) (names : List String) : Nat :=
  ((canisterKeys all).filter (fun k => !names.contains k)).length

/-- Every declared dependency name of every canister has a descriptor in the
map (the closed-graph hypothesis of the specification). -/
def allDepsPresent (all : CanisterMap) : Bool :=
  all.all (fun p => p.2.dependencies.all (fun d => (canisterKeys all).contains d))

deriving instance DecidableEq for Except

/-- An assigned canister identifier (`ic_types::Principal`), treated as the
opaque external text the specification describes. -/
abbrev CanisterId := String

/-- A minimal JSON value, enough to embed the `serde_json::Value` stored for
the extra `dependencies` field of a canister declaration: a string, an array,
or anything else. -/
inductive Json where
  | str : String → Json
  | arr : List Json → Json
  | other : Json

/-- `Json.asString` succeeds exactly on string values. -/
def Json.asString : Json → Option String
  | .str s => some s
  | _ => none

/-- `Vec::<String>::deserialize` on a JSON value: succeeds exactly when the
value is an array all of whose elements are strings (rust.rs line 44). -/
def deserializeVecString : Json → Option (List String)
  | .arr xs => xs.mapM Json.asString
  | _ => none

/-- Modelled from the spec: one entry of the `CanisterPool` (§3 PackagePool),
which is not under src/ — a package name together with its externally assigned
identifier. -/
structure PoolCanister where
  name : String
  id : CanisterId
deriving DecidableEq, Repr

/-- Modelled from the spec: the `CanisterPool` of §3, the mapping from package
name to descriptor and assigned identifier, as the list of its canisters. -/
structure CanisterPool where
  canisters : List PoolCanister
deriving DecidableEq, Repr

/-- Modelled from the spec: `CanisterPool::get_first_canister_with_name` —
the first canister in the pool carrying the given name. -/
def CanisterPool.getFirstCanisterWithName (pool : CanisterPool) (name : String) :
    Option PoolCanister :=
  pool.canisters.find? (fun c => c.name == name)

/-- Modelled from the spec: looking a canister name up by assigned identifier
in the pool (used by the environment-variable construction of §4.3). -/
def CanisterPool.nameOfId (pool : CanisterPool) (id : CanisterId) : Option String :=
  (pool.canisters.find? (fun c => c.id == id)).map (fun c => c.name)

/-- Modelled from the spec: the `CanisterInfo` a build backend receives
(§2 PackageDescriptor, §4.2), which is not under src/: name, type tag,
extra type-specific fields (`get_extra_value`), the optionally assigned
identifier (`get_canister_id`), the rust package selector
(`RustCanisterInfo::get_package`), and the conventional output paths
(`get_output_wasm_path`, `get_output_idl_path`). -/
structure CanisterInfo where
  name : String
  typeTag : String
  extras : List (String × Json)
  canisterId : Option CanisterId
  package : String
  outputWasmPath : String
  outputIdlPath : String

/-- `CanisterInfo::get_extra_value`: the JSON value stored under a key of the
type-specific fields. -/
def CanisterInfo.getExtraValue (info : CanisterInfo) (key : String) : Option Json :=
  (info.extras.find? (fun p => p.1 == key)).map (fun p => p.2)

/-- Errors of the Rust build backend, including the context layers of rust.rs:
`dependenciesWrongType` (line 45), `canisterNotFound` (line 53),
`collectDepsCtx` (the `with_context` of line 57), `getDepsCtx` (the
`#[context]` of line 36), `notRustType` (the `as_info` downcast of line 72),
`panicNoCanisterId` (the `unwrap()` of line 75, modelled as an error),
`runCargoFailed` (line 101), `compileFailed` (line 137), `candidMissing`
(metadata embedding, §4.4), and `buildCtx` (the `#[context]` of line 65). -/
inductive RustErr where
  | dependenciesWrongType
  | canisterNotFound (name : String)
  | collectDepsCtx (canister : String) (e : RustErr)
  | getDepsCtx (canister : String) (e : RustErr)
  | notRustType
  | panicNoCanisterId
  | runCargoFailed
  | compileFailed (package : String)
  | candidMissing (idlPath : String)
  | buildCtx (canister : String) (e : RustErr)
deriving DecidableEq, Repr

/-- The `deps.iter().map(...).collect::<DfxResult<Vec<CanisterId>>>()` of
rust.rs lines 47-57: resolve each declared dependency name, left to right, to
the assigned identifier of the first pool canister with that name, stopping at
the first name with no pool canister. -/
def collectIds (pool : CanisterPool) : List String → Except RustErr (List CanisterId)
  | [] => .ok []
  | n :: ns =>
    match pool.getFirstCanisterWithName n with
    | none => .error (.canisterNotFound n)
    | some c =>
      match collectIds pool ns with
      | .error e => .error e
      | .ok ids => .ok (c.id :: ids)

/-- `RustBuilder::get_dependencies` (rust.rs lines 37-59): read the extra
`dependencies` field (absent means the empty list, a non-list-of-strings value
is a type error), then resolve the declared names through `collectIds`; a name
with no pool canister is a not-found error.  The whole result is wrapped in
the function's `#[context]` layer, and a failed collection additionally in the
`with_context` layer of line 57. -/
def getDependencies (pool : CanisterPool) (info : CanisterInfo) :
    Except RustErr (List CanisterId) :=
  let raw : Except RustErr (List CanisterId) :=
    match info.getExtraValue "dependencies" with
    | none => .ok []
    | some v =>
      match deserializeVecString v with
      | none => .error .dependenciesWrongType
      | some deps =>
        match collectIds pool deps with
        | .error e => .error (.collectDepsCtx info.name e)
        | .ok ids => .ok ids
  match raw with
  | .error e => .error (.getDepsCtx info.name e)
  | r => r

/-- Modelled from the spec: the deterministic environment-variable name derived
from a dependency's package name — case-folded with every non-alphanumeric
character replaced (§4.3, §8). -/
def envVarName (depName : String) : String :=
  String.mk (depName.data.map (fun c => if c.isAlphanum then c.toUpper else Char.ofNat 95))

/-- Modelled from the spec: `builders::environment_variables` (called at
rust.rs line 91) is not under src/.  Per §4.3 it produces one entry per
resolved dependency: the variable name derived from the dependency's package
name by `envVarName`, the value the dependency's assigned identifier as
external text. -/
def environmentVariables (_info : CanisterInfo) (_networkName : String)
    (pool : CanisterPool) (dependencies : List CanisterId) : List (String × String) :=
  dependencies.filterMap (fun id => (pool.nameOfId id).map (fun n => (envVarName n, id)))

/-- The state of the external world a `RustBuilder::build` call observes:
whether `cargo build` can be spawned and exits successfully, whether
`ic-cdk-optimizer` is installed and exits successfully, and whether the candid
interface-description file exists on disk at embedding time. -/
structure BuildWorld where
  cargoSpawns : Bool
  cargoSucceeds : Bool
  optimizerInstalled : Bool
  optimizerSucceeds : Bool
  idlFileExists : Bool
deriving DecidableEq, Repr

/-- `WasmBuildOutput` restricted to the variant rust.rs produces. -/
inductive WasmOut where
  | file (path : String)
deriving DecidableEq, Repr

/-- `IdlBuildOutput` restricted to the variant rust.rs produces. -/
inductive IdlOut where
  | file (path : String)
deriving DecidableEq, Repr

/-- `BuildOutput` (builders/mod.rs, via rust.rs lines 145-149). -/
structure BuildOutput where
  canisterId : CanisterId
  wasm : WasmOut
  idl : IdlOut
deriving DecidableEq, Repr

/-- The observable effects of one `RustBuilder::build` run: the dependency
identifiers actually used after `unwrap_or_default`, the environment passed to
cargo, whether the optimizer ran and with which `-o OUT IN` path pair, whether
an optimizer warning was logged, and the `(wasm, idl)` paths the metadata
embedding was applied to. -/
structure BuildTrace where
  depsUsed : List CanisterId
  env : List (String × String)
  ranOptimizer : Bool
  optimizerPaths : Option (String × String)
  optimizerWarned : Bool
  embedded : Option (String × String)
deriving DecidableEq, Repr

/-- Modelled from the spec: `add_candid_service_metadata` of wasm/metadata.rs
is not under src/.  Per §4.4 it embeds the interface-description content as a
named custom section in place, and fails exactly when the interface-description
file does not exist on disk at that point. -/
def addCandidServiceMetadata (world : BuildWorld) (_wasmPath idlPath : String) :
    Except RustErr Unit :=
  if world.idlFileExists then .ok () else .error (.candidMissing idlPath)

/-- The `self.get_dependencies(pool, canister_info).unwrap_or_default()` of
rust.rs lines 88-90: a failed dependency lookup is replaced by the empty
dependency list. -/
def depsOrDefault (pool : CanisterPool) (info : CanisterInfo) : List CanisterId :=
  match getDependencies pool info with
  | .ok ds => ds
  | .error _ => []

/-- `RustBuilder::build` (rust.rs lines 66-150), with the external world as an
explicit parameter and the observable effects recorded in a `BuildTrace`.
The control flow follows the source: downcast to rust info, unwrap the
canister id (a panic in Rust, modelled as `panicNoCanisterId`), compute the
dependencies with `get_dependencies(...).unwrap_or_default()` (line 90),
inject the environment, run cargo, run the optimizer in place when installed
(warning instead of failing when it is missing or exits non-zero), then fail
on a non-zero cargo exit, embed the candid metadata, and return the
conventional output paths. -/
def rustBuild (world : BuildWorld) (pool : CanisterPool) (info : CanisterInfo)
    (networkName : String) : Except RustErr (BuildOutput × BuildTrace) :=
  let raw : Except RustErr (BuildOutput × BuildTrace) :=
    if info.typeTag == "rust" then
      match info.canisterId with
      | none => .error .panicNoCanisterId
      | some cid =>
        let deps := depsOrDefault pool info
        let vars := environmentVariables info networkName pool deps
        if world.cargoSpawns then
          let ranOpt := world.optimizerInstalled
          let optPaths : Option (String × String) :=
            if ranOpt then some (info.outputWasmPath, info.outputWasmPath) else none
          let optWarned := !world.optimizerInstalled ||
            (world.optimizerInstalled && !world.optimizerSucceeds)
          if world.cargoSucceeds then
            match addCandidServiceMetadata world info.outputWasmPath info.outputIdlPath with
            | .error e => .error e
            | .ok _ =>
              .ok ({ canisterId := cid,
                     wasm := .file info.outputWasmPath,
                     idl := .file info.outputIdlPath },
                   { depsUsed := deps, env := vars, ranOptimizer := ranOpt,
                     optimizerPaths := optPaths, optimizerWarned := optWarned,
                     embedded := some (info.outputWasmPath, info.outputIdlPath) })
          else .error (.compileFailed info.package)
        else .error .runCargoFailed
    else .error .notRustType
  match raw with
  | .error e => .error (.buildCtx info.name e)
  | r => r

/-! ### Concrete projects used as witnesses and counterexamples -/

/-- A two-canister acyclic project: app depends on lib. -/
def mapAppLib : CanisterMap := [("app", ⟨["lib"]⟩), ("lib", ⟨[]⟩)]

/-- A two-canister cyclic project: A and B list each other. -/
def mapCycAB : CanisterMap := [("A", ⟨["B"]⟩), ("B", ⟨["A"]⟩)]

/-- A start canister S leading into the cycle A -> B -> A. -/
def mapCycS : CanisterMap := [("S", ⟨["A"]⟩), ("A", ⟨["B"]⟩), ("B", ⟨["A"]⟩)]

/-- One canister listing a dependency name with no descriptor. -/
def mapGhost : CanisterMap := [("app", ⟨["ghost"]⟩)]

/-- A world in which every external tool is present and succeeds and the
interface-description file exists. -/
def worldGood : BuildWorld :=
  { cargoSpawns := true, cargoSucceeds := true, optimizerInstalled := true,
    optimizerSucceeds := true, idlFileExists := true }

/-- A world identical to `worldGood` except that `ic-cdk-optimizer` is not
installed. -/
def worldNoOptimizer : BuildWorld :=
  { cargoSpawns := true, cargoSucceeds := true, optimizerInstalled := false,
    optimizerSucceeds := true, idlFileExists := true }

/-- A pool with no canisters. -/
def poolEmpty : CanisterPool := { canisters := [] }

/-- A pool holding the canister bar with assigned identifier xyz123. -/
def poolBar : CanisterPool := { canisters := [{ name := "bar", id := "xyz123" }] }

/-- A rust canister declaring the dependency ghost, which no pool resolves. -/
def infoGhostDep : CanisterInfo :=
  { name := "app", typeTag := "rust",
    extras := [("dependencies", Json.arr [Json.str "ghost"])],
    canisterId := some "aaaaa-aa", package := "app_pkg",
    outputWasmPath := "app.wasm", outputIdlPath := "app.did" }

/-- A rust canister foo declaring the dependency bar. -/
def infoBarDep : CanisterInfo :=
  { name := "foo", typeTag := "rust",
    extras := [("dependencies", Json.arr [Json.str "bar"])],
    canisterId := some "bbbbb-bb", package := "foo_pkg",
    outputWasmPath := "foo.wasm", outputIdlPath := "foo.did" }


/-- A world in which everything succeeds but the interface-description file is
missing at embedding time. -/
def worldNoIdl : BuildWorld :=
  { cargoSpawns := true, cargoSucceeds := true, optimizerInstalled := true,
    optimizerSucceeds := true, idlFileExists := false }

/-- The build output `rustBuild` produces for `infoGhostDep`. -/
def outGhost : BuildOutput :=
  { canisterId := "aaaaa-aa", wasm := .file "app.wasm", idl := .file "app.did" }

/-- The trace of building `infoGhostDep` in `worldGood`. -/
def trGhostGood : BuildTrace :=
  { depsUsed := [], env := [], ranOptimizer := true,
    optimizerPaths := some ("app.wasm", "app.wasm"), optimizerWarned := false,
    embedded := some ("app.wasm", "app.did") }

/-- The trace of building `infoGhostDep` in `worldNoOptimizer`. -/
def trGhostNoOpt : BuildTrace :=
  { depsUsed := [], env := [], ranOptimizer := false,
    optimizerPaths := none, optimizerWarned := true,
    embedded := some ("app.wasm", "app.did") }

/-- The build output `rustBuild` produces for `infoBarDep`. -/
def outBar : BuildOutput :=
  { canisterId := "bbbbb-bb", wasm := .file "foo.wasm", idl := .file "foo.did" }

/-- The trace of building `infoBarDep` in `worldGood` against `poolBar`. -/
def trBar : BuildTrace :=
  { depsUsed := ["xyz123"], env := [("BAR", "xyz123")], ranOptimizer := true,
    optimizerPaths := some ("foo.wasm", "foo.wasm"), optimizerWarned := false,
    embedded := some ("foo.wasm", "foo.did") }

/-! ### Basic properties of the traversal -/

theorem wrapCtx_eq_ok {name : String} {r : Option (Except DfxErr (List String))}
    {res : List String} :
    wrapCtx name r = some (.ok res) ↔ r = some (.ok res) := by
  cases r with
  | none => simp [wrapCtx]
  | some x =>
    cases x with
    | error e => simp [wrapCtx]
    | ok l => simp [wrapCtx]

theorem wrapCtx_isSome {name : String} {r : Option (Except DfxErr (List String))} :
    (wrapCtx name r).isSome = r.isSome := by
  cases r with
  | none => rfl
  | some x => cases x with
    | error e => rfl
    | ok l => rfl

theorem wrapCtx_eq_error {name : String} {r : Option (Except DfxErr (List String))}
    {e : DfxErr} :
    wrapCtx name r = some (.error e) ↔
      ∃ e0, r = some (.error e0) ∧ e = .addDepsCtx name e0 := by
  cases r with
  | none => simp [wrapCtx]
  | some x =>
    cases x with
    | error e0 =>
      simp only [wrapCtx, Option.some.injEq, Except.error.injEq]
      constructor
      · intro h; exact ⟨e0, rfl, h.symm⟩
      · rintro ⟨e1, h1, h2⟩
        cases h1; exact h2.symm
    | ok l => simp [wrapCtx]

theorem depsLoop_subset {step : List String → String → Option (Except DfxErr (List String))}
    (H : ∀ ns d r, step ns d = some (.ok r) → ∀ x ∈ ns, x ∈ r) :
    ∀ deps names res, depsLoop step names deps = some (.ok res) →
      ∀ x ∈ names, x ∈ res := by
  intro deps
  induction deps with
  | nil =>
    intro names res h
    simp only [depsLoop, Option.some.injEq, Except.ok.injEq] at h
    subst h; exact fun x hx => hx
  | cons d ds ih =>
    intro names res h
    simp only [depsLoop] at h
    cases hs : step names d with
    | none => rw [hs] at h; cases h
    | some r =>
      cases r with
      | error e => rw [hs] at h; cases h
      | ok ns =>
        rw [hs] at h
        exact fun x hx => ih ns res h x (H names d ns hs x hx)

theorem addDependencies_subset (all : CanisterMap) :
    ∀ fuel names path name res,
      addDependencies all fuel names path name = some (.ok res) →
      ∀ x ∈ names, x ∈ res := by
  intro fuel
  induction fuel with
  | zero => intro names path name res h; cases h
  | succ fuel ih =>
    intro names path name res h
    rw [addDependencies, wrapCtx_eq_ok] at h
    by_cases hc : names.contains name
    · rw [if_pos hc] at h
      by_cases hp : path.contains name
      · rw [if_pos hp] at h; cases h
      · rw [if_neg hp] at h
        simp only [Option.some.injEq, Except.ok.injEq] at h
        subst h; exact fun x hx => hx
    · rw [if_neg hc] at h
      cases hl : lookupCanister all name with
      | none => rw [hl] at h; cases h
      | some c =>
        rw [hl] at h
        intro x hx
        exact depsLoop_subset (fun ns d r hr => ih ns (path ++ [name]) d r hr)
          c.dependencies (name :: names) res h x (List.mem_cons_of_mem _ hx)

theorem length_filter_mono {l : List String} {p q : String → Bool}
    (h : ∀ a, q a = true → p a = true) :
    (l.filter q).length ≤ (l.filter p).length := by
  induction l with
  | nil => simp
  | cons a l ih =>
    by_cases hq : q a = true
    · rw [List.filter_cons_of_pos hq, List.filter_cons_of_pos (h a hq)]
      simpa using Nat.succ_le_succ ih
    · rw [List.filter_cons_of_neg (by simpa using hq)]
      by_cases hp : p a = true
      · rw [List.filter_cons_of_pos hp]
        exact Nat.le_succ_of_le ih
      · rw [List.filter_cons_of_neg (by simpa using hp)]
        exact ih

theorem filter_notcontains_cons_le {names : List String} {name : String}
    (l : List String) :
    (l.filter fun k => !(name :: names).contains k).length ≤
      (l.filter fun k => !names.contains k).length := by
  refine length_filter_mono ?_
  intro a ha
  simp at ha ⊢
  exact ha.2

theorem filter_notcontains_cons_lt {names : List String} {name : String}
    (hn : name ∉ names) :
    ∀ l : List String, name ∈ l →
    (l.filter fun k => !(name :: names).contains k).length <
      (l.filter fun k => !names.contains k).length := by
  intro l hk
  induction l with
  | nil => cases hk
  | cons a l ih =>
    by_cases ha : a = name
    · subst ha
      rw [List.filter_cons_of_neg (by simp), List.filter_cons_of_pos (by simp [hn])]
      exact Nat.lt_succ_of_le (filter_notcontains_cons_le l)
    · have hk' : name ∈ l := by
        rcases List.mem_cons.mp hk with h' | h'
        · exact absurd h'.symm ha
        · exact h'
      by_cases hca : a ∈ names
      · rw [List.filter_cons_of_neg (by simp [hca]),
          List.filter_cons_of_neg (by simp [hca])]
        exact ih hk'
      · rw [List.filter_cons_of_pos (by simp [ha, hca]),
          List.filter_cons_of_pos (by simp [hca])]
        exact Nat.succ_lt_succ (ih hk')

theorem countNew_le_of_subset {all : CanisterMap} {names names' : List String}
    (h : ∀ x ∈ names, x ∈ names') :
    countNew all names' ≤ countNew all names := by
  refine length_filter_mono ?_
  intro a ha
  simp at ha ⊢
  exact fun hmem => ha (h a hmem)

theorem countNew_cons_lt {all : CanisterMap} {names : List String} {name : String}
    (hk : name ∈ canisterKeys all) (hn : name ∉ names) :
    countNew all (name :: names) < countNew all names :=
  filter_notcontains_cons_lt hn (canisterKeys all) hk

theorem lookupCanister_mem_keys {all : CanisterMap} {name : String} {c : ConfigCanister}
    (h : lookupCanister all name = some c) : name ∈ canisterKeys all := by
  unfold lookupCanister at h
  cases hf : all.find? (fun p => p.1 == name) with
  | none => rw [hf] at h; cases h
  | some p =>
    have hm := List.mem_of_find?_eq_some hf
    have hp := List.find?_some hf
    have hpn : p.1 = name := by simpa using hp
    subst hpn
    exact List.mem_map_of_mem (fun q => q.1) hm

/-! ### Fuel sufficiency: the traversal terminates -/

theorem depsLoop_isSome {all : CanisterMap}
    {step : List String → String → Option (Except DfxErr (List String))}
    {fuel : Nat}
    (Hs : ∀ ns d, countNew all ns < fuel → (step ns d).isSome = true)
    (Hg : ∀ ns d r, step ns d = some (.ok r) → ∀ x ∈ ns, x ∈ r) :
    ∀ deps names, countNew all names < fuel →
      (depsLoop step names deps).isSome = true := by
  intro deps
  induction deps with
  | nil => intro names _; rfl
  | cons d ds ih =>
    intro names hlt
    simp only [depsLoop]
    cases hs : step names d with
    | none =>
      have := Hs names d hlt
      rw [hs] at this
      cases this
    | some r =>
      cases r with
      | error e => rfl
      | ok ns =>
        exact ih ns (Nat.lt_of_le_of_lt (countNew_le_of_subset (Hg names d ns hs)) hlt)

/-- Fuel sufficiency for the fueled embedding of `add_dependencies`: any fuel
exceeding the number of not-yet-visited declared canister names makes the
recursion complete (with a success or an error, never fuel exhaustion).  This
is the termination argument of the source: a name is expanded at most once,
because the visited set strictly grows on each first visit and already-visited
names return without recursing. -/
theorem addDependencies_isSome (all : CanisterMap) :
    ∀ fuel names path name, countNew all names < fuel →
      (addDependencies all fuel names path name).isSome = true := by
  intro fuel
  induction fuel with
  | zero => intro names path name h; cases h
  | succ fuel ih =>
    intro names path name _hlt
    rw [addDependencies, wrapCtx_isSome]
    by_cases hc : names.contains name
    · rw [if_pos hc]
      by_cases hp : path.contains name
      · rw [if_pos hp]; rfl
      · rw [if_neg hp]; rfl
    · rw [if_neg hc]
      cases hl : lookupCanister all name with
      | none => rfl
      | some c =>
        have hmem : name ∈ canisterKeys all := lookupCanister_mem_keys hl
        have hnn : name ∉ names := by
          intro hx
          exact hc (by simpa using hx)
        have hlt2 : countNew all (name :: names) < fuel := by
          have h1 : countNew all (name :: names) < countNew all names :=
            countNew_cons_lt hmem hnn
          omega
        exact depsLoop_isSome
          (fun ns d h => ih ns (path ++ [name]) d h)
          (fun ns d r hr => addDependencies_subset all fuel ns (path ++ [name]) d r hr)
          c.dependencies (name :: names) hlt2

/-! ### Characterization of successful traversals -/

/-- The visited set is dependency-closed except possibly at names still on the
active path: every visited name off the path has a descriptor whose declared
dependencies have all been visited. -/
def ClosedExcept (all : CanisterMap) (names path : List String) : Prop :=
  ∀ x ∈ names, x ∈ path ∨
    ∃ c, lookupCanister all x = some c ∧ ∀ d ∈ c.dependencies, d ∈ names

theorem depsLoop_closed {all : CanisterMap}
    {step : List String → String → Option (Except DfxErr (List String))}
    {path1 : List String}
    (H : ∀ ns d r, ClosedExcept all ns path1 → step ns d = some (.ok r) →
      d ∈ r ∧ ClosedExcept all r path1)
    (Hg : ∀ ns d r, step ns d = some (.ok r) → ∀ x ∈ ns, x ∈ r) :
    ∀ deps names res, ClosedExcept all names path1 →
      depsLoop step names deps = some (.ok res) →
      (∀ d ∈ deps, d ∈ res) ∧ ClosedExcept all res path1 := by
  intro deps
  induction deps with
  | nil =>
    intro names res hcl h
    simp only [depsLoop, Option.some.injEq, Except.ok.injEq] at h
    subst h
    exact ⟨fun d hd => absurd hd (List.not_mem_nil d), hcl⟩
  | cons d ds ih =>
    intro names res hcl h
    simp only [depsLoop] at h
    cases hs : step names d with
    | none => rw [hs] at h; cases h
    | some r =>
      cases r with
      | error e => rw [hs] at h; cases h
      | ok ns =>
        rw [hs] at h
        obtain ⟨hd1, hcl1⟩ := H names d ns hcl hs
        obtain ⟨hds, hcl2⟩ := ih ns res hcl1 h
        refine ⟨?_, hcl2⟩
        intro d' hd'
        rcases List.mem_cons.mp hd' with h' | h'
        · subst h'
          exact depsLoop_subset Hg ds ns res h d' hd1
        · exact hds d' h'

theorem addDependencies_closed (all : CanisterMap) :
    ∀ fuel names path name res,
      ClosedExcept all names path →
      addDependencies all fuel names path name = some (.ok res) →
      name ∈ res ∧ ClosedExcept all res path := by
  intro fuel
  induction fuel with
  | zero => intro names path name res _ h; cases h
  | succ fuel ih =>
    intro names path name res hcl h
    rw [addDependencies, wrapCtx_eq_ok] at h
    by_cases hc : names.contains name
    · rw [if_pos hc] at h
      by_cases hp : path.contains name
      · rw [if_pos hp] at h; cases h
      · rw [if_neg hp] at h
        simp only [Option.some.injEq, Except.ok.injEq] at h
        subst h
        exact ⟨by simpa using hc, hcl⟩
    · rw [if_neg hc] at h
      cases hl : lookupCanister all name with
      | none => rw [hl] at h; cases h
      | some c =>
        rw [hl] at h
        have hcl1 : ClosedExcept all (name :: names) (path ++ [name]) := by
          intro x hx
          rcases List.mem_cons.mp hx with h' | h'
          · subst h'
            exact Or.inl (List.mem_append_right path (List.mem_singleton.mpr rfl))
          · rcases hcl x h' with h'' | ⟨c', hc', hd'⟩
            · exact Or.inl (List.mem_append_left _ h'')
            · exact Or.inr ⟨c', hc', fun d hd => List.mem_cons_of_mem _ (hd' d hd)⟩
        obtain ⟨hds, hcl2⟩ := depsLoop_closed
          (fun ns d r hcls hs => ih ns (path ++ [name]) d r hcls hs)
          (fun ns d r hr => addDependencies_subset all fuel ns (path ++ [name]) d r hr)
          c.dependencies (name :: names) res hcl1 h
        have hname : name ∈ res :=
          depsLoop_subset
            (fun ns d r hr => addDependencies_subset all fuel ns (path ++ [name]) d r hr)
            c.dependencies (name :: names) res h name (List.mem_cons_self _ _)
        refine ⟨hname, ?_⟩
        intro x hx
        rcases hcl2 x hx with h' | h''
        · rcases List.mem_append.mp h' with h'' | h''
          · exact Or.inl h''
          · have : x = name := List.mem_singleton.mp h''
            subst this
            exact Or.inr ⟨c, hl, hds⟩
        · exact Or.inr h''

theorem depsLoop_reach
    {step : List String → String → Option (Except DfxErr (List String))}
    (R : String → String → Prop)
    (H : ∀ ns d r, step ns d = some (.ok r) → ∀ x ∈ r, x ∈ ns ∨ R d x) :
    ∀ deps names res, depsLoop step names deps = some (.ok res) →
      ∀ x ∈ res, x ∈ names ∨ ∃ d ∈ deps, R d x := by
  intro deps
  induction deps with
  | nil =>
    intro names res h x hx
    simp only [depsLoop, Option.some.injEq, Except.ok.injEq] at h
    subst h
    exact Or.inl hx
  | cons d ds ih =>
    intro names res h x hx
    simp only [depsLoop] at h
    cases hs : step names d with
    | none => rw [hs] at h; cases h
    | some r =>
      cases r with
      | error e => rw [hs] at h; cases h
      | ok ns =>
        rw [hs] at h
        rcases ih ns res h x hx with h' | ⟨d', hd', hr⟩
        · rcases H names d ns hs x h' with h'' | h''
          · exact Or.inl h''
          · exact Or.inr ⟨d, List.mem_cons_self _ _, h''⟩
        · exact Or.inr ⟨d', List.mem_cons_of_mem _ hd', hr⟩

theorem addDependencies_reach (all : CanisterMap) :
    ∀ fuel names path name res,
      addDependencies all fuel names path name = some (.ok res) →
      ∀ x ∈ res, x ∈ names ∨ Relation.ReflTransGen (edge all) name x := by
  intro fuel
  induction fuel with
  | zero => intro names path name res h; cases h
  | succ fuel ih =>
    intro names path name res h x hx
    rw [addDependencies, wrapCtx_eq_ok] at h
    by_cases hc : names.contains name
    · rw [if_pos hc] at h
      by_cases hp : path.contains name
      · rw [if_pos hp] at h; cases h
      · rw [if_neg hp] at h
        simp only [Option.some.injEq, Except.ok.injEq] at h
        subst h
        exact Or.inl hx
    · rw [if_neg hc] at h
      cases hl : lookupCanister all name with
      | none => rw [hl] at h; cases h
      | some c =>
        rw [hl] at h
        rcases depsLoop_reach (Relation.ReflTransGen (edge all))
          (fun ns d r hr => ih ns (path ++ [name]) d r hr)
          c.dependencies (name :: names) res h x hx with h' | ⟨d, hd, hr⟩
        · rcases List.mem_cons.mp h' with h'' | h''
          · subst h''
            exact Or.inr Relation.ReflTransGen.refl
          · exact Or.inl h''
        · exact Or.inr (Relation.ReflTransGen.head ⟨c, hl, hd⟩ hr)

/-! ### Success of the traversal on closed acyclic graphs -/

theorem mem_keys_lookup {all : CanisterMap} {name : String}
    (h : name ∈ canisterKeys all) : ∃ c, lookupCanister all name = some c := by
  unfold canisterKeys at h
  rcases List.mem_map.mp h with ⟨p, hp, hpn⟩
  have hsome : (all.find? (fun q => q.1 == name)).isSome = true := by
    rw [List.find?_isSome]
    exact ⟨p, hp, by simpa using hpn⟩
  cases hf : all.find? (fun q => q.1 == name) with
  | none => rw [hf] at hsome; cases hsome
  | some q => exact ⟨q.2, by unfold lookupCanister; rw [hf]; rfl⟩

theorem allDepsPresent_mem {all : CanisterMap} {name : String} {c : ConfigCanister}
    (hcl : allDepsPresent all = true) (hl : lookupCanister all name = some c) :
    ∀ d ∈ c.dependencies, d ∈ canisterKeys all := by
  intro d hd
  unfold lookupCanister at hl
  cases hf : all.find? (fun p => p.1 == name) with
  | none => rw [hf] at hl; cases hl
  | some p =>
    rw [hf] at hl
    simp only [Option.map_some', Option.some.injEq] at hl
    have hm := List.mem_of_find?_eq_some hf
    unfold allDepsPresent at hcl
    have h1 := (List.all_eq_true.mp hcl) p hm
    rw [hl] at h1
    have h2 := (List.all_eq_true.mp h1) d hd
    simpa using h2

/-- All names on the active path transitively list the name being visited:
the invariant that makes a repeat on the path a genuine dependency cycle. -/
def pathReach (all : CanisterMap) (path : List String) (name : String) : Prop :=
  ∀ x ∈ path, Relation.TransGen (edge all) x name

theorem depsLoop_ok {all : CanisterMap}
    {step : List String → String → Option (Except DfxErr (List String))}
    {fuel : Nat} (P : String → Prop)
    (Hs : ∀ ns d, countNew all ns < fuel → P d →
      ∃ r, step ns d = some (.ok r))
    (Hg : ∀ ns d r, step ns d = some (.ok r) → ∀ x ∈ ns, x ∈ r) :
    ∀ deps, (∀ d ∈ deps, P d) → ∀ names, countNew all names < fuel →
      ∃ res, depsLoop step names deps = some (.ok res) := by
  intro deps
  induction deps with
  | nil => intro _ names _; exact ⟨names, rfl⟩
  | cons d ds ih =>
    intro hP names hlt
    obtain ⟨ns, hns⟩ := Hs names d hlt (hP d (List.mem_cons_self _ _))
    obtain ⟨res, hres⟩ := ih (fun d' hd' => hP d' (List.mem_cons_of_mem _ hd')) ns
      (Nat.lt_of_le_of_lt (countNew_le_of_subset (Hg names d ns hns)) hlt)
    exact ⟨res, by simp only [depsLoop]; rw [hns]; exact hres⟩

theorem addDependencies_ok_of_acyclic (all : CanisterMap)
    (hclosed : allDepsPresent all = true)
    (hacyc : ∀ x, ¬ Relation.TransGen (edge all) x x) :
    ∀ fuel names path name,
      countNew all names < fuel →
      name ∈ canisterKeys all →
      pathReach all path name →
      ∃ res, addDependencies all fuel names path name = some (.ok res) := by
  intro fuel
  induction fuel with
  | zero => intro names path name h _ _; cases h
  | succ fuel ih =>
    intro names path name _hlt hkey hpr
    rw [addDependencies]
    by_cases hc : names.contains name
    · rw [if_pos hc]
      by_cases hp : path.contains name
      · exact absurd (hpr name (by simpa using hp)) (hacyc name)
      · rw [if_neg hp]
        exact ⟨names, by rw [wrapCtx_eq_ok]⟩
    · rw [if_neg hc]
      obtain ⟨c, hl⟩ := mem_keys_lookup hkey
      rw [hl]
      have hnn : name ∉ names := fun hx => hc (by simpa using hx)
      have hlt2 : countNew all (name :: names) < fuel := by
        have h1 := countNew_cons_lt hkey hnn
        omega
      obtain ⟨res, hres⟩ := depsLoop_ok
        (fun d => d ∈ canisterKeys all ∧ pathReach all (path ++ [name]) d)
        (fun ns d hltd hPd => ih ns (path ++ [name]) d hltd hPd.1 hPd.2)
        (fun ns d r hr => addDependencies_subset all fuel ns (path ++ [name]) d r hr)
        c.dependencies
        (fun d hd => ⟨allDepsPresent_mem hclosed hl d hd, by
          intro x hx
          rcases List.mem_append.mp hx with h' | h'
          · exact Relation.TransGen.tail (hpr x h') ⟨c, hl, hd⟩
          · have : x = name := List.mem_singleton.mp h'
            subst this
            exact Relation.TransGen.single ⟨c, hl, hd⟩⟩)
        (name :: names) hlt2
      exact ⟨res, by rw [wrapCtx_eq_ok]; exact hres⟩

/-! ### Shape of circular-dependency error payloads -/

theorem depsLoop_error_ind
    {step : List String → String → Option (Except DfxErr (List String))}
    (C : DfxErr → Prop) :
    ∀ deps, (∀ ns d e, d ∈ deps → step ns d = some (.error e) → C e) →
      ∀ names e, depsLoop step names deps = some (.error e) → C e := by
  intro deps
  induction deps with
  | nil => intro _ names e h; cases h
  | cons d ds ih =>
    intro H names e h
    simp only [depsLoop] at h
    cases hs : step names d with
    | none => rw [hs] at h; cases h
    | some r =>
      cases r with
      | error e0 =>
        rw [hs] at h
        simp only [Option.some.injEq, Except.error.injEq] at h
        subst h
        exact H names d e0 (List.mem_cons_self _ _) hs
      | ok ns =>
        rw [hs] at h
        exact ih (fun ns' d' e' hd' hs' => H ns' d' e' (List.mem_cons_of_mem _ hd') hs')
          ns e h

theorem head?_append_singleton {l : List String} {a : String} (h : l ≠ []) :
    (l ++ [a]).head? = l.head? := by
  cases l with
  | nil => exact absurd rfl h
  | cons x xs => rfl

theorem addDependencies_circ (all : CanisterMap) :
    ∀ fuel names path name e p,
      addDependencies all fuel names path name = some (.error e) →
      circPayload e = some p →
      List.Chain' (edge all) (path ++ [name]) →
      ∃ q nm, p = q ++ [nm] ∧ nm ∈ q ∧ List.Chain' (edge all) p ∧
        p.head? = (path ++ [name]).head? := by
  intro fuel
  induction fuel with
  | zero => intro names path name e p h; cases h
  | succ fuel ih =>
    intro names path name e p h hp hch
    rw [addDependencies, wrapCtx_eq_error] at h
    obtain ⟨e0, h0, he⟩ := h
    subst he
    simp only [circPayload] at hp
    by_cases hc : names.contains name
    · rw [if_pos hc] at h0
      by_cases hpc : path.contains name
      · rw [if_pos hpc] at h0
        simp only [Option.some.injEq, Except.error.injEq] at h0
        subst h0
        simp only [circPayload, Option.some.injEq] at hp
        subst hp
        exact ⟨path, name, rfl, by simpa using hpc, hch, rfl⟩
      · rw [if_neg hpc] at h0; cases h0
    · rw [if_neg hc] at h0
      cases hl : lookupCanister all name with
      | none =>
        rw [hl] at h0
        simp only [Option.some.injEq, Except.error.injEq] at h0
        subst h0
        cases hp
      | some c =>
        rw [hl] at h0
        have hne : path ++ [name] ≠ [] := by simp
        refine depsLoop_error_ind (fun e1 => circPayload e1 = some p →
            ∃ q nm, p = q ++ [nm] ∧ nm ∈ q ∧ List.Chain' (edge all) p ∧
              p.head? = (path ++ [name]).head?)
          c.dependencies ?_ (name :: names) e0 h0 hp
        intro ns d e1 hd hs hp1
        have hch2 : List.Chain' (edge all) ((path ++ [name]) ++ [d]) := by
          rw [List.chain'_append]
          refine ⟨hch, List.chain'_singleton d, ?_⟩
          intro x hx y hy
          rw [List.getLast?_concat] at hx
          simp only [Option.mem_def, Option.some.injEq] at hx
          simp only [List.head?_cons, Option.mem_def, Option.some.injEq] at hy
          subst hx; subst hy
          exact ⟨c, hl, hd⟩
        obtain ⟨q, nm, hq, hnm, hchp, hhd⟩ := ih ns (path ++ [name]) d e1 p hs hp1 hch2
        exact ⟨q, nm, hq, hnm, hchp, by rw [hhd, head?_append_singleton hne]⟩

/-! ### Entry-point inversions and auxiliary facts -/

theorem depsLoop_append
    {step : List String → String → Option (Except DfxErr (List String))} :
    ∀ l1 l2 names, depsLoop step names (l1 ++ l2) =
      match depsLoop step names l1 with
      | some (.ok ns) => depsLoop step ns l2
      | r => r := by
  intro l1
  induction l1 with
  | nil => intro l2 names; rfl
  | cons d ds ih =>
    intro l2 names
    simp only [List.cons_append, depsLoop]
    cases step names d with
    | none => rfl
    | some r =>
      cases r with
      | error e => rfl
      | ok ns => exact ih l2 ns

theorem countNew_nil_le (all : CanisterMap) : countNew all [] ≤ all.length := by
  unfold countNew
  calc ((canisterKeys all).filter fun k => !([] : List String).contains k).length
      ≤ (canisterKeys all).length := List.length_filter_le _ _
    _ = all.length := by unfold canisterKeys; exact List.length_map all _

theorem getNames_focused_eq (all : CanisterMap) (focus : String) :
    getCanisterNamesWithDependencies (some all) (some focus) =
      match addDependencies all (all.length + 1) [] [] focus with
      | none => .error (.getNamesCtx (some focus) .outOfFuel)
      | some (.error e) => .error (.getNamesCtx (some focus) e)
      | some (.ok names) => .ok names := by
  cases hr : addDependencies all (all.length + 1) [] [] focus with
  | none => simp [getCanisterNamesWithDependencies, hr]
  | some r =>
    cases r with
    | error e => simp [getCanisterNamesWithDependencies, hr]
    | ok names => simp [getCanisterNamesWithDependencies, hr]

theorem focused_ok_inv {all : CanisterMap} {focus : String} {s : List String}
    (h : getCanisterNamesWithDependencies (some all) (some focus) = .ok s) :
    addDependencies all (all.length + 1) [] [] focus = some (.ok s) := by
  rw [getNames_focused_eq] at h
  cases hr : addDependencies all (all.length + 1) [] [] focus with
  | none => rw [hr] at h; cases h
  | some r =>
    cases r with
    | error e => rw [hr] at h; cases h
    | ok names =>
      rw [hr] at h
      simp only [Except.ok.injEq] at h
      subst h
      rfl

theorem focused_error_inv {all : CanisterMap} {focus : String} {e : DfxErr}
    (h : getCanisterNamesWithDependencies (some all) (some focus) = .error e) :
    ∃ e0, e = .getNamesCtx (some focus) e0 ∧
      addDependencies all (all.length + 1) [] [] focus = some (.error e0) := by
  rw [getNames_focused_eq] at h
  cases hr : addDependencies all (all.length + 1) [] [] focus with
  | none =>
    have hs := addDependencies_isSome all (all.length + 1) [] [] focus
      (Nat.lt_succ_of_le (countNew_nil_le all))
    rw [hr] at hs
    cases hs
  | some r =>
    cases r with
    | error e0 =>
      rw [hr] at h
      simp only [Except.error.injEq] at h
      exact ⟨e0, h.symm, rfl⟩
    | ok names => rw [hr] at h; cases h

theorem collectIds_ok_forall2 (pool : CanisterPool) :
    ∀ names, (∀ n ∈ names, (pool.getFirstCanisterWithName n).isSome = true) →
      ∃ ids, collectIds pool names = .ok ids ∧
        List.Forall₂
          (fun n i => ∃ c, pool.getFirstCanisterWithName n = some c ∧ c.id = i)
          names ids := by
  intro names
  induction names with
  | nil => intro _; exact ⟨[], rfl, List.Forall₂.nil⟩
  | cons n ns ih =>
    intro hall
    have hn := hall n (List.mem_cons_self _ _)
    cases hc : pool.getFirstCanisterWithName n with
    | none => rw [hc] at hn; cases hn
    | some c =>
      obtain ⟨ids, hids, hf⟩ := ih (fun n' hn' => hall n' (List.mem_cons_of_mem _ hn'))
      refine ⟨c.id :: ids, ?_, List.Forall₂.cons ⟨c, hc, rfl⟩ hf⟩
      simp only [collectIds]
      rw [hc, hids]

theorem rustBuild_ok_inv {world : BuildWorld} {pool : CanisterPool}
    {info : CanisterInfo} {net : String} {out : BuildOutput} {tr : BuildTrace}
    (hok : rustBuild world pool info net = .ok (out, tr)) :
    (info.typeTag == "rust") = true ∧
    (∃ cid, info.canisterId = some cid ∧ out.canisterId = cid) ∧
    world.cargoSpawns = true ∧ world.cargoSucceeds = true ∧
    world.idlFileExists = true ∧
    out.wasm = .file info.outputWasmPath ∧ out.idl = .file info.outputIdlPath ∧
    tr = { depsUsed := depsOrDefault pool info,
           env := environmentVariables info net pool (depsOrDefault pool info),
           ranOptimizer := world.optimizerInstalled,
           optimizerPaths := if world.optimizerInstalled then
             some (info.outputWasmPath, info.outputWasmPath) else none,
           optimizerWarned := !world.optimizerInstalled ||
             (world.optimizerInstalled && !world.optimizerSucceeds),
           embedded := some (info.outputWasmPath, info.outputIdlPath) } := by
  unfold rustBuild at hok
  cases htt : (info.typeTag == "rust") with
  | false => rw [htt] at hok; simp at hok
  | true =>
    rw [htt] at hok
    simp only [if_true] at hok
    cases hcid : info.canisterId with
    | none => rw [hcid] at hok; simp at hok
    | some cid =>
      rw [hcid] at hok
      cases hsp : world.cargoSpawns with
      | false => rw [hsp] at hok; simp at hok
      | true =>
        rw [hsp] at hok
        simp only [if_true] at hok
        cases hcs : world.cargoSucceeds with
        | false => rw [hcs] at hok; simp at hok
        | true =>
          rw [hcs] at hok
          simp only [if_true] at hok
          unfold addCandidServiceMetadata at hok
          cases hidl : world.idlFileExists with
          | false => rw [hidl] at hok; simp at hok
          | true =>
            rw [hidl] at hok
            simp only [if_true] at hok
            simp only [Except.ok.injEq, Prod.mk.injEq] at hok
            obtain ⟨hout, htr⟩ := hok
            subst hout
            subst htr
            exact ⟨rfl, ⟨cid, rfl, rfl⟩, rfl, rfl, rfl, rfl, rfl, rfl⟩

theorem rustBuild_fails_without_idl {world : BuildWorld} {pool : CanisterPool}
    {info : CanisterInfo} {net : String}
    (hidl : world.idlFileExists = false) :
    ∀ r, rustBuild world pool info net ≠ .ok r := by
  intro r hok
  cases r with
  | mk out tr =>
    have := rustBuild_ok_inv hok
    rw [hidl] at this
    exact absurd this.2.2.2.2.1 (by simp)

/-! ### Reductions of get_dependencies -/

theorem getDependencies_no_field {pool : CanisterPool} {info : CanisterInfo}
    (h : info.getExtraValue "dependencies" = none) :
    getDependencies pool info = .ok [] := by
  simp [getDependencies, h]

theorem getDependencies_wrong_type {pool : CanisterPool} {info : CanisterInfo}
    {v : Json} (hv : info.getExtraValue "dependencies" = some v)
    (hd : deserializeVecString v = none) :
    getDependencies pool info = .error (.getDepsCtx info.name .dependenciesWrongType) := by
  simp [getDependencies, hv, hd]

theorem getDependencies_collect_ok {pool : CanisterPool} {info : CanisterInfo}
    {v : Json} {deps : List String} {ids : List CanisterId}
    (hv : info.getExtraValue "dependencies" = some v)
    (hd : deserializeVecString v = some deps)
    (hc : collectIds pool deps = .ok ids) :
    getDependencies pool info = .ok ids := by
  simp [getDependencies, hv, hd, hc]

/-! ### The claims -/

/-- C9: for every finite descriptor map and every start name, the recursive
dependency traversal terminates: any fuel exceeding the number of declared
canister names not yet visited completes the fueled recursion (with a success
or an error, never fuel exhaustion), because the visited set strictly grows on
each first visit and already-visited names return without recursing. -/
theorem c9_traversal_terminates (all : CanisterMap) (fuel : Nat)
    (names path : List String) (name : String)
    (hfuel : countNew all names < fuel) :
    (addDependencies all fuel names path name).isSome = true :=
  addDependencies_isSome all fuel names path name hfuel

theorem c9_traversal_terminates_witness :
    countNew mapAppLib [] < 3 ∧
      (addDependencies mapAppLib 3 [] [] "app").isSome = true :=
  ⟨by decide, c9_traversal_terminates mapAppLib 3 [] [] "app" (by decide)⟩

/-- C10: RustBuilder::get_dependencies returns, in declared order, exactly the
pointwise image of the declared dependency name list under the pool lookup:
with no `dependencies` field it succeeds with the empty list; with a field
that is not a list of strings it fails with a wrong-type error; and when every
declared name resolves in the pool it returns, in order, each name's assigned
identifier. -/
theorem c10_get_dependencies_image (pool : CanisterPool) (info : CanisterInfo) :
    (info.getExtraValue "dependencies" = none → getDependencies pool info = .ok []) ∧
    (∀ v, info.getExtraValue "dependencies" = some v → deserializeVecString v = none →
      getDependencies pool info = .error (.getDepsCtx info.name .dependenciesWrongType)) ∧
    (∀ v names, info.getExtraValue "dependencies" = some v →
      deserializeVecString v = some names →
      (∀ n ∈ names, (pool.getFirstCanisterWithName n).isSome = true) →
      ∃ ids, getDependencies pool info = .ok ids ∧
        List.Forall₂
          (fun n i => ∃ c, pool.getFirstCanisterWithName n = some c ∧ c.id = i)
          names ids) := by
  refine ⟨fun h => getDependencies_no_field h,
    fun v hv hd => getDependencies_wrong_type hv hd,
    fun v names hv hd hall => ?_⟩
  obtain ⟨ids, hc, hf⟩ := collectIds_ok_forall2 pool names hall
  exact ⟨ids, getDependencies_collect_ok hv hd hc, hf⟩

theorem c10_get_dependencies_image_witness :
    ∃ ids, getDependencies poolBar infoBarDep = .ok ids ∧
      List.Forall₂
        (fun n i => ∃ c, poolBar.getFirstCanisterWithName n = some c ∧ c.id = i)
        ["bar"] ids :=
  (c10_get_dependencies_image poolBar infoBarDep).2.2
    (Json.arr [Json.str "bar"]) ["bar"] rfl rfl
    (fun n hn => by
      have : n = "bar" := List.mem_singleton.mp hn
      subst this
      rfl)

/-- C8: post-processing is in place: every successful RustBuilder::build
records in its BuildOutput exactly the conventional output paths of the
descriptor, and the optimizer, when it ran at all, was invoked with the output
path as both its input and its output, so callers never observe a different
path because post-processing happened. -/
theorem c8_postprocessing_in_place (world : BuildWorld) (pool : CanisterPool)
    (info : CanisterInfo) (net : String) (out : BuildOutput) (tr : BuildTrace)
    (hok : rustBuild world pool info net = .ok (out, tr)) :
    out.wasm = .file info.outputWasmPath ∧ out.idl = .file info.outputIdlPath ∧
      tr.optimizerPaths = (if world.optimizerInstalled then
        some (info.outputWasmPath, info.outputWasmPath) else none) := by
  obtain ⟨-, -, -, -, -, hw, hi, htr⟩ := rustBuild_ok_inv hok
  subst htr
  exact ⟨hw, hi, rfl⟩

theorem c8_postprocessing_in_place_witness :
    outGhost.wasm = .file infoGhostDep.outputWasmPath ∧
      outGhost.idl = .file infoGhostDep.outputIdlPath ∧
      trGhostGood.optimizerPaths = (if worldGood.optimizerInstalled then
        some (infoGhostDep.outputWasmPath, infoGhostDep.outputWasmPath) else none) :=
  c8_postprocessing_in_place worldGood poolEmpty infoGhostDep "local"
    outGhost trGhostGood (by decide)

/-- C4 counterexample: with an empty pool, get_dependencies for a canister
declaring the dependency ghost fails with a not-found error, yet the very same
build succeeds: the failure is not propagated. -/
theorem c4_counterexample_swallowed_failure :
    getDependencies poolEmpty infoGhostDep =
      .error (.getDepsCtx "app" (.collectDepsCtx "app" (.canisterNotFound "ghost"))) ∧
    rustBuild worldGood poolEmpty infoGhostDep "local" = .ok (outGhost, trGhostGood) :=
  ⟨rfl, by decide⟩

/-- C4 (amended): a failure of get_dependencies during RustBuilder::build is
silently downgraded by `unwrap_or_default()` (rust.rs line 90) to the empty
dependency list: the build proceeds, using an environment computed from no
dependencies, and the error is not propagated. -/
theorem c4_amended_deps_failure_downgraded (world : BuildWorld)
    (pool : CanisterPool) (info : CanisterInfo) (net : String) (e : RustErr)
    (out : BuildOutput) (tr : BuildTrace)
    (hfail : getDependencies pool info = .error e)
    (hok : rustBuild world pool info net = .ok (out, tr)) :
    tr.depsUsed = [] ∧ tr.env = environmentVariables info net pool [] := by
  obtain ⟨-, -, -, -, -, -, -, htr⟩ := rustBuild_ok_inv hok
  subst htr
  constructor
  · simp [depsOrDefault, hfail]
  · simp only []
    rw [show depsOrDefault pool info = [] from by simp [depsOrDefault, hfail]]

theorem c4_amended_deps_failure_downgraded_witness :
    trGhostGood.depsUsed = [] ∧
      trGhostGood.env = environmentVariables infoGhostDep "local" poolEmpty [] :=
  c4_amended_deps_failure_downgraded worldGood poolEmpty infoGhostDep "local"
    (.getDepsCtx "app" (.collectDepsCtx "app" (.canisterNotFound "ghost")))
    outGhost trGhostGood rfl (by decide)

/-- C5 counterexample: in a world where the size optimizer is not installed,
the build succeeds without ever shrinking the module: a successful build does
not imply the optimization step ran. -/
theorem c5_counterexample_no_shrink :
    rustBuild worldNoOptimizer poolEmpty infoGhostDep "local" =
      .ok (outGhost, trGhostNoOpt) ∧
    trGhostNoOpt.ranOptimizer = false :=
  ⟨by decide, rfl⟩

/-- C5 (amended): whenever RustBuilder::build returns successfully, the
interface-description content was embedded in the module at the output path
(so the interface-description file existed on disk), and the optimizer ran
exactly when it was installed (its absence, like its failure, only produces a
warning); if the interface-description file does not exist at embedding time
the whole build fails. -/
theorem c5_amended_postprocessing (world : BuildWorld) (pool : CanisterPool)
    (info : CanisterInfo) (net : String) :
    (∀ out tr, rustBuild world pool info net = .ok (out, tr) →
      tr.embedded = some (info.outputWasmPath, info.outputIdlPath) ∧
        world.idlFileExists = true ∧ tr.ranOptimizer = world.optimizerInstalled) ∧
    (world.idlFileExists = false → ∀ r, rustBuild world pool info net ≠ .ok r) := by
  constructor
  · intro out tr hok
    obtain ⟨-, -, -, -, hidl, -, -, htr⟩ := rustBuild_ok_inv hok
    subst htr
    exact ⟨rfl, hidl, rfl⟩
  · intro hidl r
    exact rustBuild_fails_without_idl hidl r

theorem c5_amended_postprocessing_witness :
    (trGhostGood.embedded = some (infoGhostDep.outputWasmPath, infoGhostDep.outputIdlPath) ∧
      worldGood.idlFileExists = true ∧
      trGhostGood.ranOptimizer = worldGood.optimizerInstalled) ∧
    rustBuild worldNoIdl poolEmpty infoGhostDep "local" ≠
      .ok (outGhost, trGhostGood) :=
  ⟨(c5_amended_postprocessing worldGood poolEmpty infoGhostDep "local").1
      outGhost trGhostGood (by decide),
    (c5_amended_postprocessing worldNoIdl poolEmpty infoGhostDep "local").2 rfl
      (outGhost, trGhostGood)⟩

/-- C7: building a package whose dependency bar carries assigned identifier
xyz123 passes to the external build tool an environment entry whose value is
exactly that identifier and whose name is the deterministic function
`envVarName` of the name bar. -/
theorem c7_environment_injection (world : BuildWorld) (pool : CanisterPool)
    (info : CanisterInfo) (net : String) (deps : List CanisterId)
    (bar : String) (id : CanisterId) (out : BuildOutput) (tr : BuildTrace)
    (hdeps : getDependencies pool info = .ok deps)
    (hid : id ∈ deps)
    (hbar : pool.nameOfId id = some bar)
    (hok : rustBuild world pool info net = .ok (out, tr)) :
    (envVarName bar, id) ∈ tr.env := by
  obtain ⟨-, -, -, -, -, -, -, htr⟩ := rustBuild_ok_inv hok
  subst htr
  show (envVarName bar, id) ∈
    environmentVariables info net pool (depsOrDefault pool info)
  rw [show depsOrDefault pool info = deps from by simp [depsOrDefault, hdeps]]
  exact List.mem_filterMap.mpr ⟨id, hid, by rw [hbar]; rfl⟩

theorem c7_environment_injection_witness :
    (envVarName "bar", "xyz123") ∈ trBar.env :=
  c7_environment_injection worldGood poolBar infoBarDep "local" ["xyz123"]
    "bar" "xyz123" outBar trBar rfl (List.mem_singleton.mpr rfl) rfl (by decide)

/-- C1 counterexample: the focused resolution of mapAppLib from app computes
the set containing app and lib, but the implementation returns it through a
hash set whose iteration order is unspecified, so the enumeration putting app
(the dependent) before lib (its dependency) is a possible return value — and
it violates the claimed dependency-before-dependent order. -/
theorem c1_counterexample_order_not_guaranteed :
    focusedMayReturn mapAppLib "app" ["app", "lib"] ∧
      ¬ orderedByDeps mapAppLib ["app", "lib"] := by
  constructor
  · exact ⟨["lib", "app"], by decide, List.Perm.swap "app" "lib" []⟩
  · intro h
    have hrel := (List.pairwise_cons.mp h).1 "lib" (List.mem_singleton.mpr rfl)
    exact hrel (Relation.TransGen.single ⟨⟨["lib"]⟩, by decide, by decide⟩)

/-- C1 (amended): for every acyclic dependency graph in which every declared
dependency name has a descriptor, focused dependency resolution succeeds and
returns a sequence whose members are exactly the focus canister and its
transitive dependencies; the order of the sequence is unspecified (the
implementation collects the names through a hash set), so no
dependency-before-dependent ordering is guaranteed. -/
theorem c1_amended_focused_resolution_set (all : CanisterMap) (focus : String)
    (hdeps : allDepsPresent all = true)
    (hacyc : ∀ x, ¬ Relation.TransGen (edge all) x x)
    (hfocus : focus ∈ canisterKeys all) :
    ∃ s, getCanisterNamesWithDependencies (some all) (some focus) = .ok s ∧
      ∀ x, x ∈ s ↔ Relation.ReflTransGen (edge all) focus x := by
  obtain ⟨res, hres⟩ := addDependencies_ok_of_acyclic all hdeps hacyc (all.length + 1)
    [] [] focus (Nat.lt_succ_of_le (countNew_nil_le all)) hfocus
    (fun x hx => absurd hx (List.not_mem_nil x))
  refine ⟨res, by rw [getNames_focused_eq, hres], ?_⟩
  obtain ⟨hfmem, hcl⟩ := addDependencies_closed all (all.length + 1) [] [] focus res
    (fun x hx => absurd hx (List.not_mem_nil x)) hres
  intro x
  constructor
  · intro hx
    rcases addDependencies_reach all (all.length + 1) [] [] focus res hres x hx with h | h
    · exact absurd h (List.not_mem_nil x)
    · exact h
  · intro hreach
    induction hreach with
    | refl => exact hfmem
    | tail hyb hedge ihy =>
      obtain ⟨c1, hc1, hx1⟩ := hedge
      rcases hcl _ ihy with h | ⟨c2, hc2, hsub⟩
      · exact absurd h (List.not_mem_nil _)
      · rw [hc1] at hc2
        injection hc2 with hc2
        subst hc2
        exact hsub _ hx1

theorem edge_mapAppLib_inv {x y : String} (h : edge mapAppLib x y) :
    x = "app" ∧ y = "lib" := by
  obtain ⟨c, hc, hd⟩ := h
  by_cases hx : x = "app"
  · subst hx
    have hce : lookupCanister mapAppLib "app" = some ⟨["lib"]⟩ := by decide
    rw [hce] at hc
    injection hc with hc
    subst hc
    exact ⟨rfl, by simpa using hd⟩
  · by_cases hx2 : x = "lib"
    · subst hx2
      have hce : lookupCanister mapAppLib "lib" = some ⟨[]⟩ := by decide
      rw [hce] at hc
      injection hc with hc
      subst hc
      simp at hd
    · have h1 : (("app" : String) == x) = false :=
        beq_eq_false_iff_ne.mpr (fun hh => hx hh.symm)
      have h2 : (("lib" : String) == x) = false :=
        beq_eq_false_iff_ne.mpr (fun hh => hx2 hh.symm)
      have hnone : lookupCanister mapAppLib x = none := by
        simp [lookupCanister, mapAppLib, List.find?, h1, h2]
      rw [hnone] at hc
      cases hc

theorem acyclic_mapAppLib : ∀ x, ¬ Relation.TransGen (edge mapAppLib) x x := by
  have hlib : ∀ y, ¬ edge mapAppLib "lib" y := by
    intro y hy
    have := (edge_mapAppLib_inv hy).1
    exact absurd this (by decide)
  intro x h
  obtain ⟨z, hxz, hzx⟩ := Relation.TransGen.head'_iff.mp h
  obtain ⟨hx1, hz1⟩ := edge_mapAppLib_inv hxz
  subst hx1
  subst hz1
  rcases Relation.ReflTransGen.cases_head hzx with heq | ⟨w, hw, _⟩
  · exact absurd heq (by decide)
  · exact hlib _ hw

theorem c1_amended_focused_resolution_set_witness :
    allDepsPresent mapAppLib = true ∧
    (∀ x, ¬ Relation.TransGen (edge mapAppLib) x x) ∧
    "app" ∈ canisterKeys mapAppLib ∧
    (∃ s, getCanisterNamesWithDependencies (some mapAppLib) (some "app") = .ok s ∧
      ∀ x, x ∈ s ↔ Relation.ReflTransGen (edge mapAppLib) "app" x) :=
  ⟨by decide, acyclic_mapAppLib, by decide,
    c1_amended_focused_resolution_set mapAppLib "app" (by decide)
      acyclic_mapAppLib (by decide)⟩

/-- C2 counterexample: on the cyclic project mapCycAB, the no-focus call
returns all declared names successfully, while the focused run on A fails with
a circular-dependency error — so the no-focus call is not equivalent to
running the focused algorithm per package, and it does not fail when a focused
run would fail. -/
theorem c2_counterexample_no_focus_skips_checks :
    getCanisterNamesWithDependencies (some mapCycAB) none = .ok ["A", "B"] ∧
    getCanisterNamesWithDependencies (some mapCycAB) (some "A") =
      .error (.getNamesCtx (some "A") (.addDepsCtx "A" (.addDepsCtx "B"
        (.addDepsCtx "A" (.circular ["A", "B", "A"]))))) :=
  ⟨by decide, by decide⟩

/-- C2 (amended): with no focus canister, get_canister_names_with_dependencies
returns exactly the declared canister names (the map keys), performing no
traversal and hence no cycle or missing-dependency detection; when every
focused run succeeds, that name set coincides with the union of the focused
results, but the no-focus call also succeeds on projects where focused runs
would fail. -/
theorem c2_amended_union_of_focused (all : CanisterMap)
    (hok : ∀ k ∈ canisterKeys all,
      ∃ s, getCanisterNamesWithDependencies (some all) (some k) = .ok s) :
    getCanisterNamesWithDependencies (some all) none = .ok (canisterKeys all) ∧
    ∀ x, x ∈ canisterKeys all ↔
      ∃ k ∈ canisterKeys all, ∃ s,
        getCanisterNamesWithDependencies (some all) (some k) = .ok s ∧ x ∈ s := by
  constructor
  · rfl
  · intro x
    constructor
    · intro hx
      obtain ⟨s, hs⟩ := hok x hx
      have hadd := focused_ok_inv hs
      obtain ⟨hxmem, -⟩ := addDependencies_closed all (all.length + 1) [] [] x s
        (fun y hy => absurd hy (List.not_mem_nil y)) hadd
      exact ⟨x, hx, s, hs, hxmem⟩
    · rintro ⟨k, hk, s, hs, hxs⟩
      have hadd := focused_ok_inv hs
      obtain ⟨-, hcl⟩ := addDependencies_closed all (all.length + 1) [] [] k s
        (fun y hy => absurd hy (List.not_mem_nil y)) hadd
      rcases hcl x hxs with h | ⟨c, hc, -⟩
      · exact absurd h (List.not_mem_nil x)
      · exact lookupCanister_mem_keys hc

theorem c2_amended_union_of_focused_witness :
    getCanisterNamesWithDependencies (some mapAppLib) none =
      .ok (canisterKeys mapAppLib) ∧
    ∀ x, x ∈ canisterKeys mapAppLib ↔
      ∃ k ∈ canisterKeys mapAppLib, ∃ s,
        getCanisterNamesWithDependencies (some mapAppLib) (some k) = .ok s ∧ x ∈ s :=
  c2_amended_union_of_focused mapAppLib (by
    intro k hk
    simp only [canisterKeys, mapAppLib, List.map_cons, List.map_nil,
      List.mem_cons, List.not_mem_nil, or_false, List.mem_singleton] at hk
    rcases hk with rfl | rfl
    · exact ⟨["lib", "app"], by decide⟩
    · exact ⟨["lib"], by decide⟩)

/-- C3 counterexample: focusing mapCycS on S, the cycle A -> B -> A is
detected with a payload that is the whole active path from the focus S with
the repeated name appended — ["S", "A", "B", "A"] — not the path from the
first repeated occurrence of A to itself, which would be ["A", "B", "A"]. -/
theorem c3_counterexample_payload_from_root :
    getCanisterNamesWithDependencies (some mapCycS) (some "S") =
      .error (.getNamesCtx (some "S") (.addDepsCtx "S" (.addDepsCtx "A"
        (.addDepsCtx "B" (.addDepsCtx "A" (.circular ["S", "A", "B", "A"])))))) ∧
    (["S", "A", "B", "A"] : List String) ≠ ["A", "B", "A"] :=
  ⟨by decide, by decide⟩

/-- C3 (amended): whenever focused resolution fails with a circular-dependency
error, the payload (the list joined by the arrows of the message) is the
entire active traversal path: it starts at the focus canister, each
consecutive pair is a declared dependency edge, and it is formed by appending
the repeated name — which already occurs earlier in the path — to the path at
detection time. -/
theorem c3_amended_cycle_payload (all : CanisterMap) (focus : String)
    (e : DfxErr) (p : List String)
    (herr : getCanisterNamesWithDependencies (some all) (some focus) = .error e)
    (hp : circPayload e = some p) :
    p.head? = some focus ∧ List.Chain' (edge all) p ∧
      ∃ q nm, p = q ++ [nm] ∧ nm ∈ q := by
  obtain ⟨e0, he, hadd⟩ := focused_error_inv herr
  subst he
  simp only [circPayload] at hp
  have hch : List.Chain' (edge all) ([] ++ [focus]) := by simp
  obtain ⟨q, nm, hq, hnm, hchp, hhd⟩ :=
    addDependencies_circ all (all.length + 1) [] [] focus e0 p hadd hp hch
  exact ⟨by rw [hhd]; rfl, hchp, q, nm, hq, hnm⟩

theorem c3_amended_cycle_payload_witness :
    (["S", "A", "B", "A"] : List String).head? = some "S" ∧
    List.Chain' (edge mapCycS) ["S", "A", "B", "A"] ∧
    ∃ q nm, (["S", "A", "B", "A"] : List String) = q ++ [nm] ∧ nm ∈ q :=
  c3_amended_cycle_payload mapCycS "S"
    (.getNamesCtx (some "S") (.addDepsCtx "S" (.addDepsCtx "A" (.addDepsCtx "B"
      (.addDepsCtx "A" (.circular ["S", "A", "B", "A"])))))) ["S", "A", "B", "A"]
    (by decide) rfl

/-- C6: when the focus canister lists a dependency name with no descriptor,
and the declared dependencies before it resolve without error, focused
resolution fails with the not-found error for the missing name, wrapped in the
context layers naming both the missing dependency and the package that listed
it (and the focus of the failed query) — and the failure is produced entirely
inside the configuration-level resolver, before any build is attempted. -/
theorem c6_missing_dependency_not_found (all : CanisterMap) (p d : String)
    (cfg : ConfigCanister) (ds1 ds2 : List String) (names1 : List String)
    (hp : lookupCanister all p = some cfg)
    (hdeps : cfg.dependencies = ds1 ++ d :: ds2)
    (hd : lookupCanister all d = none)
    (hpre : depsLoop (fun ns n => addDependencies all all.length ns [p] n)
      [p] ds1 = some (.ok names1))
    (hdn : d ∉ names1) :
    getCanisterNamesWithDependencies (some all) (some p) =
      .error (.getNamesCtx (some p)
        (.addDepsCtx p (.addDepsCtx d (.notFound d)))) := by
  have hlen : ∃ m, all.length = m + 1 := by
    have hk := lookupCanister_mem_keys hp
    cases hall : all with
    | nil => subst hall; cases hk
    | cons a l => exact ⟨l.length, rfl⟩
  obtain ⟨m, hm⟩ := hlen
  rw [getNames_focused_eq]
  have hstep : addDependencies all all.length names1 [p] d =
      some (.error (.addDepsCtx d (.notFound d))) := by
    rw [hm, addDependencies]
    rw [if_neg (by simpa using hdn)]
    rw [hd]
    rfl
  have hadd : addDependencies all (all.length + 1) [] [] p =
      some (.error (.addDepsCtx p (.addDepsCtx d (.notFound d)))) := by
    rw [addDependencies]
    rw [if_neg (by simp)]
    rw [hp]
    simp only [List.nil_append]
    rw [hdeps, depsLoop_append, hpre]
    simp only [depsLoop]
    rw [hstep]
    rfl
  rw [hadd]

theorem c6_missing_dependency_not_found_witness :
    getCanisterNamesWithDependencies (some mapGhost) (some "app") =
      .error (.getNamesCtx (some "app")
        (.addDepsCtx "app" (.addDepsCtx "ghost" (.notFound "ghost")))) :=
  c6_missing_dependency_not_found mapGhost "app" "ghost" ⟨["ghost"]⟩ [] []
    ["app"] (by decide) rfl (by decide) rfl (by decide)
